import Mathlib

/-!
Verification of the comment-extraction library (`src/index.ts`).

The library's core is `extractYamlComments`: it walks the tree produced by the
external YAML parser into a catalog of node spans and paths, then scans the
source text line by line, classifying each `#` marker and attributing the
resulting comment to a node path.

The external parser is a black box (spec section 6); its output is modelled by
the inductive type `YNode`, which carries exactly the data the algorithm reads
from a parsed node: an optional `[start, end)` character span (`range[0]`,
`range[1]`; a missing or too-short `range` is `none`), the node-kind string
(`node.type`, used only to recognise `BLOCK_LITERAL` / `BLOCK_FOLDED`), and for
maps the key/value pairs (a JS-null key or value is `none`; reading `.range`
from JS null throws, modelled by `Except.error`).  A scalar's `value` field
models the string `String(node.value)`.

Source text is modelled as its character list; offsets are character indices.
JS whitespace trimming is modelled by `Char.isWhitespace` (the ASCII part of
the JS whitespace class, which is all the algorithm's tests and inputs use).
-/

/-- A node of the parsed document tree, as consumed by `extractYamlComments`. -/
inductive YNode where
  | scalar (value : String) (ntype : String) (range : Option (Nat × Nat))
  | ymap (items : List (Option YNode × Option YNode)) (ntype : String)
      (range : Option (Nat × Nat))
  | yseq (items : List (Option YNode)) (ntype : String) (range : Option (Nat × Nat))

/-- `node.range`, restricted to the two entries the code reads (`none` models a
missing range or one with fewer than two entries). -/
def YNode.range : YNode → Option (Nat × Nat)
  | .scalar _ _ r => r
  | .ymap _ _ r => r
  | .yseq _ _ r => r

/-- `node.type` (the node-kind string of the parser). -/
def YNode.ntype : YNode → String
  | .scalar _ t _ => t
  | .ymap _ t _ => t
  | .yseq _ t _ => t

/-- `isMap(node)` from the `yaml` package. -/
def YNode.isMap : YNode → Bool
  | .ymap _ _ _ => true
  | _ => false

/-- `isSeq(node)` from the `yaml` package. -/
def YNode.isSeq : YNode → Bool
  | .yseq _ _ _ => true
  | _ => false

/-- `isMap(x)` applied to a possibly-null value. -/
def isMapOpt : Option YNode → Bool
  | some n => n.isMap
  | none => false

/-- `isSeq(x)` applied to a possibly-null value. -/
def isSeqOpt : Option YNode → Bool
  | some n => n.isSeq
  | none => false

/-- `keyStr` (src/index.ts line 82): a scalar key renders as `String(k.value)`,
anything else (including JS null) as the sentinel `"<non-scalar-key>"`. -/
def keyStr : Option YNode → String
  | some (.scalar v _ _) => v
  | _ => "<non-scalar-key>"

/-- Reading `.range` from a possibly-null JS value: on null this throws a
`TypeError`, modelled by `Except.error`. -/
def jsRange : Option YNode → Except String (Option (Nat × Nat))
  | none => .error "TypeError: cannot read range of null"
  | some n => .ok n.range

/-- A catalog entry: `{ start, end, path }` (interface `NodeInfo` in the code);
`end_` models the field `end` (a Lean keyword). -/
structure NodeInfo where
  start : Nat
  end_ : Nat
  path : String
deriving DecidableEq

/-- The three arrays `walkAst` appends to: `nodes`, `blockRanges`, `valueNodes`. -/
structure WalkSt where
  nodes : List NodeInfo
  blockRanges : List (Nat × Nat)
  valueNodes : List NodeInfo
deriving DecidableEq

/-- Sequencing of two stateful walk steps: JS has no exception handling in
`walkAst`, so a thrown `TypeError` (modelled by `Except.error`) propagates. -/
def exceptThen (x : Except String WalkSt) (f : WalkSt → Except String WalkSt) :
    Except String WalkSt :=
  match x with
  | .error e => .error e
  | .ok st => f st

mutual

/-- `walkAst` (src/index.ts lines 86-147).  A null node or a node without a
(two-entry) range returns at once; a block scalar records its span; any node
with a nonempty path, and any map or sequence, is catalogued; maps iterate
their pairs, sequences their children, and scalars are catalogued (again) as
value nodes. -/
def walkAst (c : Option YNode) (path : List String) (st : WalkSt) :
    Except String WalkSt :=
  match c with
  | none => .ok st
  | some node => walkNode node path st
termination_by structural c

/-- The body of `walkAst` for an actual (non-null) node. -/
def walkNode (node : YNode) (path : List String) (st : WalkSt) :
    Except String WalkSt :=
  match node.range with
  | none => .ok st
  | some (s, e) =>
    let st1 :=
      if node.ntype == "BLOCK_LITERAL" || node.ntype == "BLOCK_FOLDED" then
        { st with blockRanges := st.blockRanges ++ [(s, e)] }
      else st
    let st2 :=
      if path.length > 0 || node.isMap || node.isSeq then
        { st1 with nodes := st1.nodes ++ [⟨s, e, String.intercalate "." path⟩] }
      else st1
    match node with
    | .ymap items _ _ => walkPairs items path st2
    | .yseq items _ _ => walkItems items 0 path st2
    | .scalar _ _ _ =>
      let sn : NodeInfo := ⟨s, e, String.intercalate "." path⟩
      .ok { st2 with nodes := st2.nodes ++ [sn], valueNodes := st2.valueNodes ++ [sn] }
termination_by structural node

/-- The `for (const pair of node.items)` loop of `walkAst` (lines 110-132).
`keyRange` (line 113) is computed but unused; evaluating it still reads
`.range` from the key, which throws on a null key, and likewise for the value
on line 114.  Only pairs whose value has a range are catalogued and recursed
into. -/
def walkPairs (l : List (Option YNode × Option YNode)) (path : List String)
    (st : WalkSt) : Except String WalkSt :=
  match l with
  | [] => .ok st
  | (k, v) :: rest =>
    let key := keyStr k
    match jsRange k with
    | .error e => .error e
    | .ok _keyRange =>
      match jsRange v with
      | .error e => .error e
      | .ok valueRange =>
        match valueRange with
        | some (vs, ve) =>
          let vn : NodeInfo := ⟨vs, ve, String.intercalate "." (path ++ [key])⟩
          let st1 := { st with nodes := st.nodes ++ [vn] }
          let st2 :=
            if !isMapOpt v && !isSeqOpt v then
              { st1 with valueNodes := st1.valueNodes ++ [vn] }
            else st1
          exceptThen (walkAst v (path ++ [key]) st2)
            (fun st3 => walkPairs rest path st3)
        | none => walkPairs rest path st
termination_by structural l

/-- The `node.items.forEach((child, i) => walkAst(child, [...path, i]))` loop
of `walkAst` (lines 133-135); indices are rendered in decimal when joined. -/
def walkItems (l : List (Option YNode)) (i : Nat) (path : List String)
    (st : WalkSt) : Except String WalkSt :=
  match l with
  | [] => .ok st
  | child :: rest =>
    exceptThen (walkAst child (path ++ [toString i]) st)
      (fun st1 => walkItems rest (i + 1) path st1)
termination_by structural l

end

/-- JS's stable `Array.prototype.sort` with comparator `(a, b) => a.start - b.start`:
insertion of `a` before the first element whose `start` is not smaller, which
keeps equal-`start` elements in their original order. -/
def insertByStart (a : NodeInfo) : List NodeInfo → List NodeInfo
  | [] => [a]
  | b :: t => if a.start ≤ b.start then a :: b :: t else b :: insertByStart a t

/-- Stable ascending sort by `start` (`nodes.sort((a, b) => a.start - b.start)`,
line 152). -/
def sortByStart : List NodeInfo → List NodeInfo
  | [] => []
  | a :: t => insertByStart a (sortByStart t)

/-- `inBlock` (lines 158-161): is the offset inside some recorded block-scalar
span? -/
def inBlock (blockRanges : List (Nat × Nat)) (offset : Nat) : Bool :=
  blockRanges.any (fun p => decide (p.1 ≤ offset) && decide (offset < p.2))

/-- `inValueNode` (lines 164-173): is the offset strictly inside some scalar
value node's span? -/
def inValueNode (valueNodes : List NodeInfo) (offset : Nat) : Bool :=
  valueNodes.any (fun n => decide (n.start < offset) && decide (offset < n.end_))

/-- `findNextNode` (lines 176-183): the first catalog entry (in catalog order)
whose `start` is at or after the offset. -/
def findNextNode (nodes : List NodeInfo) (offset : Nat) : Option NodeInfo :=
  nodes.find? (fun n => decide (offset ≤ n.start))

/-- `src.substring(0, offset).split("\n").length`: 1 + the number of newlines
before the offset. -/
def lineNumberAt (src : List Char) (offset : Nat) : Nat :=
  ((src.take offset).filter (fun c => c = '\n')).length + 1

/-- The qualification test of `findNodeAtOffset` (lines 188-196): the entry
ends at or before the offset, starts at or before it, and starts on the same
source line. -/
def sameLineQualifies (src : List Char) (offset : Nat) (n : NodeInfo) : Bool :=
  decide (n.end_ ≤ offset) && decide (n.start ≤ offset) &&
    (lineNumberAt src n.start == lineNumberAt src offset)

/-- `findNodeAtOffset` (lines 186-199): the first catalog entry (in catalog
order) that qualifies. -/
def findNodeAtOffset (src : List Char) (nodes : List NodeInfo) (offset : Nat) :
    Option NodeInfo :=
  nodes.find? (sameLineQualifies src offset)

/-- The line-start offsets (lines 202-205): 0, then one entry after every
newline character. -/
def lineStartsAux : List Char → Nat → List Nat
  | [], _ => []
  | c :: rest, i =>
    if c = '\n' then (i + 1) :: lineStartsAux rest (i + 1)
    else lineStartsAux rest (i + 1)

/-- `lineStarts` (lines 202-205). -/
def lineStarts (src : List Char) : List Nat := 0 :: lineStartsAux src 0

/-- `src.split(/\r?\n/)` (line 207): split on `\n`, consuming an immediately
preceding `\r`. -/
def splitLines : List Char → List (List Char)
  | [] => [[]]
  | '\r' :: '\n' :: rest => [] :: splitLines rest
  | '\n' :: rest => [] :: splitLines rest
  | c :: rest =>
    match splitLines rest with
    | [] => [[c]]
    | l :: ls => (c :: l) :: ls

/-- `hashOffset < firstNodeStart` where `firstNodeStart` may be `Infinity`
(modelled by `none`). -/
def ltOpt (x : Nat) : Option Nat → Bool
  | none => true
  | some y => decide (x < y)

/-- An extracted comment record (interface `YamlComment`). -/
structure YamlComment where
  line : Nat
  path : String
  text : String
deriving DecidableEq

/-- The immutable context the per-line scan reads: the source text, the
start-sorted catalog, the block-scalar spans, the scalar value spans, and
`firstNodeStart` (line 155, `none` for `Infinity`). -/
structure ScanCtx where
  src : List Char
  nodes : List NodeInfo
  blockRanges : List (Nat × Nat)
  valueNodes : List NodeInfo
  firstNodeStart : Option Nat

/-- The path resolution for an emitted comment (lines 242-267): `path` starts
as `"document"`; a full-line comment before `firstNodeStart` keeps it,
otherwise the next node at or after `nextLineStart` supplies it; a trailing
comment takes the same-line node ending before the marker, falling back to the
next node at or after the marker. -/
def resolvePath (ctx : ScanCtx) (isFullLineComment : Bool)
    (hashOffset nextLineStart : Nat) : String :=
  if isFullLineComment then
    if ltOpt hashOffset ctx.firstNodeStart then "document"
    else
      match findNextNode ctx.nodes nextLineStart with
      | some n => n.path
      | none => "document"
  else
    match findNodeAtOffset ctx.src ctx.nodes hashOffset with
    | some n => n.path
    | none =>
      match findNextNode ctx.nodes hashOffset with
      | some n => n.path
      | none => "document"

/-- The `while ((hashIndex = line.indexOf("#", hashIndex)) !== -1)` loop of
lines 217-277, walking the rest of the line one character at a time (`indexOf`
skips non-`#` characters; a skipped marker resumes the search at the next
index).  `suffix` is the part of `line` from position `idx` on.  At the first
emitted comment the loop breaks, hence the `Option` result. -/
def scanLineAux (ctx : ScanCtx) (line : List Char) (lineStart lineNo nextLineStart : Nat) :
    List Char → Nat → Option YamlComment
  | [], _ => none
  | c :: rest, idx =>
    if c = '#' then
      let hashOffset := lineStart + idx
      if inBlock ctx.blockRanges hashOffset then
        scanLineAux ctx line lineStart lineNo nextLineStart rest (idx + 1)
      else
        let isFullLineComment := (line.take idx).all Char.isWhitespace
        if !isFullLineComment && inValueNode ctx.valueNodes hashOffset then
          scanLineAux ctx line lineStart lineNo nextLineStart rest (idx + 1)
        else
          let commentText := String.mk ((line.drop (idx + 1)).dropWhile Char.isWhitespace)
          some ⟨lineNo, resolvePath ctx isFullLineComment hashOffset nextLineStart, commentText⟩
    else
      scanLineAux ctx line lineStart lineNo nextLineStart rest (idx + 1)

/-- One iteration of the per-line loop (lines 211-278) for the line starting at
offset `lineStart`. -/
def scanLine (ctx : ScanCtx) (line : List Char) (lineStart lineNo nextLineStart : Nat) :
    Option YamlComment :=
  scanLineAux ctx line lineStart lineNo nextLineStart line 0

/-- The per-line loop (lines 211-278): lines and their start offsets are
consumed in lockstep (`lineStarts` has exactly one entry per line);
`nextLineStart` is the next line's start, or the text length for the last
line; `lineNo` is the 1-indexed line number. -/
def processLines (ctx : ScanCtx) : List (List Char) → List Nat → Nat → List YamlComment
  | [], _, _ => []
  | line :: restLines, starts, lineNo =>
    let lineStart := (starts.head?).getD 0
    let restStarts := starts.tail
    let nextLineStart :=
      match restLines with
      | [] => ctx.src.length
      | _ => (restStarts.head?).getD ctx.src.length
    (match scanLine ctx line lineStart lineNo nextLineStart with
     | some c => [c]
     | none => []) ++ processLines ctx restLines restStarts (lineNo + 1)

/-- Builds the scan context from the walk result: the catalog sorted by start
(line 152) and `firstNodeStart` as the first sorted entry's start (line 155). -/
def buildCtx (src : List Char) (st : WalkSt) : ScanCtx :=
  let nodes := sortByStart st.nodes
  ⟨src, nodes, st.blockRanges, st.valueNodes, nodes.head?.map (fun n => n.start)⟩

/-- `extractYamlComments` (src/index.ts lines 68-281), with the parsed document
tree (`doc.contents`, null for an empty document) supplied as an argument: the
external parser is out of scope (spec section 6). -/
def extractYamlComments (src : List Char) (contents : Option YNode) :
    Except String (List YamlComment) :=
  match walkAst contents [] ⟨[], [], []⟩ with
  | .error e => .error e
  | .ok st =>
    .ok (processLines (buildCtx src st) (splitLines src) (lineStarts src) 1)

/-- The first list element achieving the minimal `start` among those satisfying
`Q`.  This is how the spec's definite description "the entry with the smallest
`start` such that ..." is read when several entries tie on `start`: catalog
order breaks the tie. -/
def minPickBy (Q : NodeInfo → Bool) (l : List NodeInfo) : Option NodeInfo :=
  match ((l.filter Q).map (fun n => n.start)).min? with
  | some m => (l.filter Q).find? (fun n => n.start == m)
  | none => none

/-- Modelled from the spec: "find the catalog entry with the smallest `start`
that is `>=`" the given offset (claim C1, spec section 4.2 step 7). -/
def smallestStartAtLeast (catalog : List NodeInfo) (off : Nat) : Option NodeInfo :=
  minPickBy (fun n => decide (off ≤ n.start)) catalog

/-- Modelled from the spec, as amended for claim C2: among the catalog entries
whose span ends at or before the marker offset and whose start lies on the
marker's source line, the one with the smallest `start` (the code prefers the
earliest-starting such entry, not the one with the largest `end`). -/
def smallestStartSameLine (src : List Char) (catalog : List NodeInfo) (off : Nat) :
    Option NodeInfo :=
  minPickBy (sameLineQualifies src off) catalog

/-- Modelled from the spec (claim C1): the full-line attribution rule.  If the
marker offset is below every catalog entry's start (in particular if the
catalog is empty), the path is `"document"`; otherwise it is the path of the
entry with the smallest start at or after the next line's start, or
`"document"` if there is none. -/
def specFullLinePath (catalog : List NodeInfo) (hashOffset nextLineStart : Nat) : String :=
  if catalog.all (fun n => decide (hashOffset < n.start)) then "document"
  else
    match smallestStartAtLeast catalog nextLineStart with
    | some n => n.path
    | none => "document"

/-- The trailing (inline) attribution rule as amended for claim C2: the
earliest-starting same-line entry ending at or before the marker; if none, the
next node at or after the marker; if none, `"document"`. -/
def specTrailingPathAmended (src : List Char) (catalog : List NodeInfo)
    (hashOffset : Nat) : String :=
  match smallestStartSameLine src catalog hashOffset with
  | some n => n.path
  | none =>
    match smallestStartAtLeast catalog hashOffset with
    | some n => n.path
    | none => "document"

mutual

/-- The parser contract of spec section 6, as far as the walk reads it: every
map pair carries an actual key node and an actual value node (never JS null);
ranges may still be absent anywhere. -/
def wfNode : YNode → Bool
  | .scalar _ _ _ => true
  | .ymap items _ _ => wfPairs items
  | .yseq items _ _ => wfItems items
termination_by structural n => n

/-- `wfNode` on a map's pair list. -/
def wfPairs : List (Option YNode × Option YNode) → Bool
  | [] => true
  | (k, v) :: rest => k.isSome && v.isSome && wfOpt k && wfOpt v && wfPairs rest
termination_by structural l => l

/-- `wfNode` on a sequence's child list. -/
def wfItems : List (Option YNode) → Bool
  | [] => true
  | c :: rest => wfOpt c && wfItems rest
termination_by structural l => l

/-- `wfNode` on a possibly-null node. -/
def wfOpt : Option YNode → Bool
  | none => true
  | some n => wfNode n
termination_by structural c => c

end

/-- The document `person:\n  # note\n  name: x` (claim C3). -/
def src3 : List Char := "person:\n  # note\n  name: x".toList

/-- The parse of `src3` per the parser contract: a root map starting at the
`person` key (offset 0) whose value is the nested map starting at the `name`
key (offset 19); the full-line comment on line 2 is not part of any node
span. -/
def tree3 : YNode :=
  .ymap [(some (.scalar "person" "PLAIN" (some (0, 6))),
          some (.ymap [(some (.scalar "name" "PLAIN" (some (19, 23))),
                        some (.scalar "x" "PLAIN" (some (25, 26))))]
                  "MAP" (some (19, 26))))]
    "MAP" (some (0, 26))

/-- The document `# comment\npath: /api#endpoint` (claim C4). -/
def src4 : List Char := "# comment\npath: /api#endpoint".toList

/-- The parse of `src4`: the root map starts at the `path` key (offset 10),
after the comment line; the scalar value `/api#endpoint` spans `[16, 29)`. -/
def tree4 : YNode :=
  .ymap [(some (.scalar "path" "PLAIN" (some (10, 14))),
          some (.scalar "/api#endpoint" "PLAIN" (some (16, 29))))]
    "MAP" (some (10, 29))

/-- The document `a: 1 # c` (claims C2 and C10). -/
def src10 : List Char := "a: 1 # c".toList

/-- The parse of `src10`: the root map's value span ends after `1` (offset 4);
the trailing comment is not part of the map's value span. -/
def tree10 : YNode :=
  .ymap [(some (.scalar "a" "PLAIN" (some (0, 1))),
          some (.scalar "1" "PLAIN" (some (3, 4))))]
    "MAP" (some (0, 4))

/-- The document `a: b#c # real` (claim C6): the first `#` of the line sits
inside the plain scalar `b#c` (span `[3, 6)`), the second one starts a real
trailing comment. -/
def src6 : List Char := "a: b#c # real".toList

/-- The parse of `src6`. -/
def tree6 : YNode :=
  .ymap [(some (.scalar "a" "PLAIN" (some (0, 1))),
          some (.scalar "b#c" "PLAIN" (some (3, 6))))]
    "MAP" (some (0, 6))

/-- A map node without offset information whose single pair has full offset
information (claim C9). -/
def tree9 : YNode :=
  .ymap [(some (.scalar "k" "PLAIN" (some (0, 1))),
          some (.scalar "v" "PLAIN" (some (3, 4))))]
    "MAP" none

/-- A well-formed tree with a non-scalar (map) key (claim C8's witness). -/
def tree8 : YNode :=
  .ymap [(some (.ymap [] "FLOW_MAP" (some (0, 2))),
          some (.scalar "v" "PLAIN" (some (4, 5))))]
    "MAP" (some (0, 5))

/-- Scan context for claim C1's witness: a one-entry catalog. -/
def ctxC1 : ScanCtx := ⟨[], [⟨5, 6, "b"⟩], [], [], some 5⟩

/-- Scan context for claim C2's witness: the sorted catalog of `tree10`. -/
def ctxC2 : ScanCtx :=
  ⟨src10, [⟨0, 4, ""⟩, ⟨3, 4, "a"⟩, ⟨3, 4, "a"⟩, ⟨3, 4, "a"⟩], [],
    [⟨3, 4, "a"⟩, ⟨3, 4, "a"⟩], some 0⟩

/-- Scan context for claim C5's witness: one block-scalar span `[3, 14)`. -/
def ctxC5 : ScanCtx := ⟨[], [], [(3, 14)], [], none⟩

/-- Scan context for claim C7's witness. -/
def ctxC7 : ScanCtx := ⟨[], [], [], [], none⟩

theorem foldl_min_of_le (a : Nat) (xs : List Nat) (h : ∀ x ∈ xs, a ≤ x) :
    xs.foldl min a = a := by
  induction xs generalizing a with
  | nil => rfl
  | cons x t ih =>
    have hax : min a x = a := Nat.min_eq_left (h x (List.mem_cons_self x t))
    rw [List.foldl_cons, hax]
    exact ih a (fun y hy => h y (List.mem_cons_of_mem x hy))

theorem min?_cons_of_le (a : Nat) (xs : List Nat) (h : ∀ x ∈ xs, a ≤ x) :
    (a :: xs).min? = some a := by
  show some (xs.foldl min a) = some a
  rw [foldl_min_of_le a xs h]

theorem find?_eq_minPickBy (Q : NodeInfo → Bool) (l : List NodeInfo)
    (hs : l.Pairwise (fun a b => a.start ≤ b.start)) :
    l.find? Q = minPickBy Q l := by
  induction l with
  | nil => rfl
  | cons a t ih =>
    obtain ⟨hat, hst⟩ := List.pairwise_cons.mp hs
    cases hQ : Q a with
    | false =>
      rw [List.find?_cons, hQ]
      rw [ih hst]
      unfold minPickBy
      rw [List.filter_cons, hQ]
      rfl
    | true =>
      rw [List.find?_cons, hQ]
      unfold minPickBy
      rw [List.filter_cons, hQ]
      have hmin : (((a :: t.filter Q)).map (fun n => n.start)).min? = some a.start := by
        rw [List.map_cons]
        apply min?_cons_of_le
        intro x hx
        obtain ⟨n, hn, rfl⟩ := List.mem_map.mp hx
        exact hat n (List.mem_of_mem_filter hn)
      simp only [if_true, hmin, List.find?_cons, beq_self_eq_true]

theorem fullLinePath_eq (nodes : List NodeInfo) (first : Option Nat) (off nls : Nat)
    (hsort : nodes.Pairwise (fun a b => a.start ≤ b.start))
    (hfirst : first = nodes.head?.map (fun n => n.start)) :
    (if ltOpt off first then "document"
     else
       match findNextNode nodes nls with
       | some n => n.path
       | none => "document") = specFullLinePath nodes off nls := by
  cases nodes with
  | nil => subst hfirst; rfl
  | cons a t =>
    subst hfirst
    simp only [List.head?, Option.map_some']
    by_cases hlt : off < a.start
    · have h1 : ltOpt off (some a.start) = true := by simp [ltOpt, hlt]
      have h2 : ((a :: t).all fun n => decide (off < n.start)) = true := by
        rw [List.all_eq_true]
        intro n hn
        rcases List.mem_cons.mp hn with h | h
        · subst h; simpa using hlt
        · have := (List.pairwise_cons.mp hsort).1 n h
          simp only [decide_eq_true_eq]; omega
      simp only [h1, if_true, specFullLinePath, h2]
    · have h1 : ltOpt off (some a.start) = false := by simp [ltOpt]; omega
      have h2 : ((a :: t).all fun n => decide (off < n.start)) = false := by
        rw [List.all_cons]
        have : decide (off < a.start) = false := by simpa using hlt
        rw [this, Bool.false_and]
      simp only [h1, Bool.false_eq_true, if_false, specFullLinePath, h2]
      rw [findNextNode, smallestStartAtLeast, find?_eq_minPickBy _ _ hsort]

theorem trailingPath_eq (src : List Char) (nodes : List NodeInfo) (off : Nat)
    (hsort : nodes.Pairwise (fun a b => a.start ≤ b.start)) :
    (match findNodeAtOffset src nodes off with
     | some n => n.path
     | none =>
       match findNextNode nodes off with
       | some n => n.path
       | none => "document") = specTrailingPathAmended src nodes off := by
  rw [specTrailingPathAmended, smallestStartSameLine, findNodeAtOffset,
    find?_eq_minPickBy _ _ hsort, findNextNode, smallestStartAtLeast,
    find?_eq_minPickBy _ _ hsort]

theorem scanLineAux_emit (ctx : ScanCtx) (line : List Char)
    (lineStart lineNo nextLineStart h : Nat)
    (hget : line.get? h = some '#')
    (hblock : inBlock ctx.blockRanges (lineStart + h) = false)
    (hemit : (line.take h).all Char.isWhitespace = true ∨
             inValueNode ctx.valueNodes (lineStart + h) = false) :
    scanLineAux ctx line lineStart lineNo nextLineStart (line.drop h) h =
      some ⟨lineNo,
            resolvePath ctx ((line.take h).all Char.isWhitespace) (lineStart + h) nextLineStart,
            String.mk ((line.drop (h + 1)).dropWhile Char.isWhitespace)⟩ := by
  rw [List.get?_eq_getElem?] at hget
  obtain ⟨hlt, hel⟩ := List.getElem?_eq_some.mp hget
  have hdrop : line.drop h = '#' :: line.drop (h + 1) := by
    rw [List.drop_eq_getElem_cons hlt, hel]
  rw [hdrop]
  simp only [scanLineAux, if_pos rfl, hblock, Bool.false_eq_true, if_false]
  cases hfl : (line.take h).all Char.isWhitespace with
  | true => simp
  | false =>
    have hval : inValueNode ctx.valueNodes (lineStart + h) = false := by
      rcases hemit with h1 | h1
      · rw [hfl] at h1; cases h1
      · exact h1
    simp [hval]

theorem mem_insertByStart (a x : NodeInfo) (l : List NodeInfo) :
    x ∈ insertByStart a l ↔ x = a ∨ x ∈ l := by
  induction l with
  | nil => simp [insertByStart]
  | cons b t ih =>
    rw [insertByStart]
    by_cases hc : a.start ≤ b.start
    · rw [if_pos hc]; simp
    · rw [if_neg hc]; simp [ih]; tauto

theorem insertByStart_pairwise (a : NodeInfo) (l : List NodeInfo)
    (h : l.Pairwise (fun x y => x.start ≤ y.start)) :
    (insertByStart a l).Pairwise (fun x y => x.start ≤ y.start) := by
  induction l with
  | nil => simp [insertByStart]
  | cons b t ih =>
    obtain ⟨hbt, ht⟩ := List.pairwise_cons.mp h
    rw [insertByStart]
    by_cases hc : a.start ≤ b.start
    · rw [if_pos hc]
      apply List.pairwise_cons.mpr
      refine ⟨?_, h⟩
      intro y hy
      rcases List.mem_cons.mp hy with h' | h'
      · subst h'; exact hc
      · exact hc.trans (hbt y h')
    · rw [if_neg hc]
      apply List.pairwise_cons.mpr
      refine ⟨?_, ih ht⟩
      intro y hy
      rcases (mem_insertByStart a y t).mp hy with h' | h'
      · subst h'; omega
      · exact hbt y h'

theorem sortByStart_pairwise (l : List NodeInfo) :
    (sortByStart l).Pairwise (fun x y => x.start ≤ y.start) := by
  induction l with
  | nil => exact List.Pairwise.nil
  | cons a t ih => exact insertByStart_pairwise a _ ih

theorem buildCtx_nodes_sorted (src : List Char) (st : WalkSt) :
    (buildCtx src st).nodes.Pairwise (fun x y => x.start ≤ y.start) :=
  sortByStart_pairwise _

theorem buildCtx_firstNodeStart (src : List Char) (st : WalkSt) :
    (buildCtx src st).firstNodeStart =
      (buildCtx src st).nodes.head?.map (fun n => n.start) := rfl

/-- C1: for every full-line comment (first `#` on its line preceded only by
whitespace, not inside a literal span), if the marker's offset is below the
minimum start over all catalog entries the emitted record's path is
`"document"`; otherwise it is the path of the entry with the smallest start at
or after the next line's start, and `"document"` when no such entry exists
(`specFullLinePath`).  The hypotheses on `ctx` hold for the context built by
`extractYamlComments` (`buildCtx_nodes_sorted`, `buildCtx_firstNodeStart`). -/
theorem c1_full_line_attribution (ctx : ScanCtx) (line : List Char)
    (lineStart lineNo nextLineStart h : Nat)
    (hsort : ctx.nodes.Pairwise (fun a b => a.start ≤ b.start))
    (hfirst : ctx.firstNodeStart = ctx.nodes.head?.map (fun n => n.start))
    (hget : line.get? h = some '#')
    (hblock : inBlock ctx.blockRanges (lineStart + h) = false)
    (hfull : (line.take h).all Char.isWhitespace = true) :
    scanLineAux ctx line lineStart lineNo nextLineStart (line.drop h) h =
      some ⟨lineNo, specFullLinePath ctx.nodes (lineStart + h) nextLineStart,
            String.mk ((line.drop (h + 1)).dropWhile Char.isWhitespace)⟩ := by
  rw [scanLineAux_emit ctx line lineStart lineNo nextLineStart h hget hblock (Or.inl hfull)]
  simp only [hfull, resolvePath, if_true]
  rw [fullLinePath_eq ctx.nodes ctx.firstNodeStart (lineStart + h) nextLineStart hsort hfirst]

/-- Witness for C1 at a concrete input: the line `# hi` with a one-entry
catalog starting at offset 5. -/
theorem c1_full_line_attribution_witness :
    ("# hi".toList.get? 0 = some '#') ∧
    scanLineAux ctxC1 "# hi".toList 0 1 5 ("# hi".toList.drop 0) 0 =
      some ⟨1, specFullLinePath ctxC1.nodes 0 5,
            String.mk (("# hi".toList.drop 1).dropWhile Char.isWhitespace)⟩ :=
  ⟨by decide,
   c1_full_line_attribution ctxC1 "# hi".toList 0 1 5 0
     (by simp [ctxC1]) rfl (by decide) (by decide) (by decide)⟩

theorem walk_none : walkAst none [] ⟨[], [], []⟩ = .ok ⟨[], [], []⟩ := rfl

theorem walk3 : walkAst (some tree3) [] ⟨[], [], []⟩ =
    .ok ⟨[⟨0, 26, ""⟩, ⟨19, 26, "person"⟩, ⟨19, 26, "person"⟩,
          ⟨25, 26, "person.name"⟩, ⟨25, 26, "person.name"⟩, ⟨25, 26, "person.name"⟩],
         [],
         [⟨25, 26, "person.name"⟩, ⟨25, 26, "person.name"⟩]⟩ := rfl

theorem walk4 : walkAst (some tree4) [] ⟨[], [], []⟩ =
    .ok ⟨[⟨10, 29, ""⟩, ⟨16, 29, "path"⟩, ⟨16, 29, "path"⟩, ⟨16, 29, "path"⟩],
         [],
         [⟨16, 29, "path"⟩, ⟨16, 29, "path"⟩]⟩ := rfl

theorem walk10 : walkAst (some tree10) [] ⟨[], [], []⟩ =
    .ok ⟨[⟨0, 4, ""⟩, ⟨3, 4, "a"⟩, ⟨3, 4, "a"⟩, ⟨3, 4, "a"⟩],
         [],
         [⟨3, 4, "a"⟩, ⟨3, 4, "a"⟩]⟩ := rfl

theorem walk6 : walkAst (some tree6) [] ⟨[], [], []⟩ =
    .ok ⟨[⟨0, 6, ""⟩, ⟨3, 6, "a"⟩, ⟨3, 6, "a"⟩, ⟨3, 6, "a"⟩],
         [],
         [⟨3, 6, "a"⟩, ⟨3, 6, "a"⟩]⟩ := rfl

/-- C2 counterexample: on `a: 1 # c` the trailing comment resolves to the
empty path (the root map, whose span `[0, 4)` is the first start-sorted
same-line entry ending before the marker), not to the scalar's path `"a"` as
the claim requires for "a trailing comment on the same line as a scalar
assignment". -/
theorem c2_counterexample :
    extractYamlComments src10 (some tree10) = .ok [⟨1, "", "c"⟩] ∧
    ("" : String) ≠ "a" := by
  constructor
  · unfold extractYamlComments
    rw [walk10]
    rfl
  · decide

/-- C2 as amended: the code prefers the earliest-starting qualifying entry
(the first, in the start-sorted catalog, whose span ends at or before the
marker and starts on the marker's line), not the one with the largest `end`;
when none qualifies, the next node at or after the marker offset is used, and
`"document"` when that also fails (`specTrailingPathAmended`). -/
theorem c2_trailing_attribution (ctx : ScanCtx) (line : List Char)
    (lineStart lineNo nextLineStart h : Nat)
    (hsort : ctx.nodes.Pairwise (fun a b => a.start ≤ b.start))
    (hget : line.get? h = some '#')
    (hblock : inBlock ctx.blockRanges (lineStart + h) = false)
    (hnotfull : (line.take h).all Char.isWhitespace = false)
    (hnotval : inValueNode ctx.valueNodes (lineStart + h) = false) :
    scanLineAux ctx line lineStart lineNo nextLineStart (line.drop h) h =
      some ⟨lineNo, specTrailingPathAmended ctx.src ctx.nodes (lineStart + h),
            String.mk ((line.drop (h + 1)).dropWhile Char.isWhitespace)⟩ := by
  rw [scanLineAux_emit ctx line lineStart lineNo nextLineStart h hget hblock (Or.inr hnotval)]
  simp only [hnotfull, resolvePath, Bool.false_eq_true, if_false]
  rw [trailingPath_eq ctx.src ctx.nodes (lineStart + h) hsort]

/-- Witness for the amended C2 at the `a: 1 # c` input. -/
theorem c2_trailing_attribution_witness :
    (src10.get? 5 = some '#') ∧
    scanLineAux ctxC2 src10 0 1 8 (src10.drop 5) 5 =
      some ⟨1, specTrailingPathAmended ctxC2.src ctxC2.nodes 5,
            String.mk ((src10.drop 6).dropWhile Char.isWhitespace)⟩ :=
  ⟨by decide,
   c2_trailing_attribution ctxC2 src10 0 1 8 5
     (by simp [ctxC2, List.pairwise_cons]) (by decide) (by decide) (by decide) (by decide)⟩

/-- C3: for `person:\n  # note\n  name: x` the single emitted record has the
container's path `"person"`, not its first scalar child's path
`"person.name"`: the next catalog entry at or after line 3's start is the
nested map itself (start 19), which precedes its child `name` (start 25). -/
theorem c3_comment_before_container_child :
    extractYamlComments src3 (some tree3) = .ok [⟨2, "person", "note"⟩] ∧
    ("person" : String) ≠ "person.name" := by
  constructor
  · unfold extractYamlComments
    rw [walk3]
    rfl
  · decide

/-- C4 counterexample: for the two-line input `# comment` / `path: /api#endpoint`
the code emits exactly one record, but its path is `"document"` — the full-line
comment's offset 0 precedes the first node's start 10 — not `"path"` as the
claim states for this input. -/
theorem c4_counterexample :
    extractYamlComments src4 (some tree4) = .ok [⟨1, "document", "comment"⟩] ∧
    ("document" : String) ≠ "path" := by
  constructor
  · unfold extractYamlComments
    rw [walk4]
    rfl
  · decide

/-- C4 as amended: the input yields exactly one record — the `#` inside the
scalar value `/api#endpoint` (strictly inside the value span `[16, 29)`)
produces nothing — and that record is attributed to `"document"`, since the
full-line comment precedes the first node. -/
theorem c4_value_hash_suppressed :
    extractYamlComments src4 (some tree4) = .ok [⟨1, "document", "comment"⟩] := by
  unfold extractYamlComments
  rw [walk4]
  rfl

theorem scanLineAux_none_of_allBlock (ctx : ScanCtx) (line : List Char)
    (lineStart lineNo nextLineStart : Nat)
    (hb : ∀ p, p < line.length → line.get? p = some '#' →
      inBlock ctx.blockRanges (lineStart + p) = true) :
    ∀ (suffix : List Char) (idx : Nat), suffix = line.drop idx →
      scanLineAux ctx line lineStart lineNo nextLineStart suffix idx = none := by
  intro suffix
  induction suffix with
  | nil => intro idx _; rfl
  | cons c rest ih =>
    intro idx hsuf
    have hidx : idx < line.length := by
      by_contra hge
      rw [List.drop_eq_nil_of_le (Nat.le_of_not_lt hge)] at hsuf
      exact List.cons_ne_nil c rest hsuf
    have hget : line.get? idx = some c := by
      rw [List.drop_eq_getElem_cons hidx] at hsuf
      rw [List.get?_eq_getElem?, List.getElem?_eq_some]
      exact ⟨hidx, (List.cons.injEq _ _ _ _ ▸ hsuf).1.symm⟩
    have hrest : rest = line.drop (idx + 1) := by
      rw [List.drop_eq_getElem_cons hidx] at hsuf
      exact (List.cons.injEq _ _ _ _ ▸ hsuf).2
    by_cases hc : c = '#'
    · subst hc
      have hbl := hb idx hidx hget
      simp only [scanLineAux, if_pos rfl, hbl, if_true]
      exact ih (idx + 1) hrest
    · simp only [scanLineAux, if_neg hc]
      exact ih (idx + 1) hrest

/-- C5: a line all of whose `#` characters lie inside recorded block-scalar
spans produces no comment record at all, regardless of indentation: every
marker found is skipped by the `inBlock` test, so the scan of the line returns
nothing. -/
theorem c5_block_scalar_line_excluded (ctx : ScanCtx) (line : List Char)
    (lineStart lineNo nextLineStart : Nat)
    (hb : ∀ p, p < line.length → line.get? p = some '#' →
      inBlock ctx.blockRanges (lineStart + p) = true) :
    scanLine ctx line lineStart lineNo nextLineStart = none := by
  unfold scanLine
  exact scanLineAux_none_of_allBlock ctx line lineStart lineNo nextLineStart hb
    line 0 (List.drop_zero line).symm

/-- Witness for C5: the line `  # b` of a block-literal body spanning
`[3, 14)` from line start 9 produces nothing. -/
theorem c5_block_scalar_line_excluded_witness :
    (∀ p, p < ("  # b".toList).length → ("  # b".toList).get? p = some '#' →
      inBlock ctxC5.blockRanges (9 + p) = true) ∧
    scanLine ctxC5 "  # b".toList 9 3 15 = none :=
  ⟨by decide,
   c5_block_scalar_line_excluded ctxC5 "  # b".toList 9 3 15 (by decide)⟩

/-- C6 counterexample: on `a: b#c # real` the first `#` of the line (index 4)
lies strictly inside the scalar value span `[3, 6)` and is skipped, yet the
scan continues and the second `#` (index 7) produces the line's record — the
claim that a skipped first marker means no record for the line is false. -/
theorem c6_counterexample :
    src6.findIdx (fun c => c == '#') = 4 ∧
    walkAst (some tree6) [] ⟨[], [], []⟩ =
      .ok ⟨[⟨0, 6, ""⟩, ⟨3, 6, "a"⟩, ⟨3, 6, "a"⟩, ⟨3, 6, "a"⟩], [],
           [⟨3, 6, "a"⟩, ⟨3, 6, "a"⟩]⟩ ∧
    inValueNode [⟨3, 6, "a"⟩, ⟨3, 6, "a"⟩] 4 = true ∧
    extractYamlComments src6 (some tree6) = .ok [⟨1, "", "real"⟩] := by
  refine ⟨by decide, walk6, by decide, ?_⟩
  unfold extractYamlComments
  rw [walk6]
  rfl

theorem scanLineAux_line_eq (ctx : ScanCtx) (line : List Char)
    (lineStart lineNo nextLineStart : Nat) :
    ∀ (suffix : List Char) (idx : Nat) (r : YamlComment),
      scanLineAux ctx line lineStart lineNo nextLineStart suffix idx = some r →
      r.line = lineNo := by
  intro suffix
  induction suffix with
  | nil => intro idx r h; exact absurd h (by simp [scanLineAux])
  | cons c rest ih =>
    intro idx r h
    simp only [scanLineAux] at h
    split at h
    · split at h
      · exact ih _ _ h
      · split at h
        · exact ih _ _ h
        · simp only [Option.some.injEq] at h
          subst h
          rfl
    · exact ih _ _ h

theorem processLines_line_ge (ctx : ScanCtx) :
    ∀ (ls : List (List Char)) (ss : List Nat) (n : Nat) (r : YamlComment),
      r ∈ processLines ctx ls ss n → n ≤ r.line := by
  intro ls
  induction ls with
  | nil => intro ss n r h; simp [processLines] at h
  | cons line rest ih =>
    intro ss n r h
    simp only [processLines] at h
    rw [List.mem_append] at h
    cases h with
    | inl h1 =>
      split at h1
      · next c hc =>
        rw [List.mem_singleton] at h1
        subst h1
        rw [scanLineAux_line_eq ctx line _ n _ _ _ r hc]
      · exact absurd h1 (List.not_mem_nil r)
    | inr h2 =>
      have := ih _ _ _ h2
      omega

theorem processLines_pairwise (ctx : ScanCtx) :
    ∀ (ls : List (List Char)) (ss : List Nat) (n : Nat),
      (processLines ctx ls ss n).Pairwise (fun a b => a.line < b.line) := by
  intro ls
  induction ls with
  | nil => intro ss n; simp [processLines]
  | cons line rest ih =>
    intro ss n
    simp only [processLines]
    split
    · next c hc =>
      rw [List.singleton_append]
      apply List.pairwise_cons.mpr
      refine ⟨?_, ih _ _⟩
      intro b hb
      have h1 := processLines_line_ge ctx rest _ _ b hb
      have h2 := scanLineAux_line_eq ctx line _ n _ _ _ c hc
      omega
    · rw [List.nil_append]
      exact ih _ _

/-- C6 as amended: at most one comment record is emitted per line — the output
records carry strictly increasing line numbers — but when a line's first
marker is skipped (inside a literal span or inside value content), scanning
continues on the same line and a later `#` may produce that line's record
(`c6_counterexample`). -/
theorem c6_at_most_one_per_line (src : List Char) (contents : Option YNode)
    (res : List YamlComment)
    (h : extractYamlComments src contents = .ok res) :
    res.Pairwise (fun a b => a.line < b.line) := by
  unfold extractYamlComments at h
  cases hw : walkAst contents [] ⟨[], [], []⟩ with
  | error e => rw [hw] at h; cases h
  | ok st =>
    rw [hw] at h
    injection h with h
    subst h
    exact processLines_pairwise _ _ _ _

/-- Witness for the amended C6 at the `a: b#c # real` input. -/
theorem c6_at_most_one_per_line_witness :
    extractYamlComments src6 (some tree6) = .ok [⟨1, "", "real"⟩] ∧
    ([⟨1, "", "real"⟩] : List YamlComment).Pairwise (fun a b => a.line < b.line) :=
  ⟨by unfold extractYamlComments; rw [walk6]; rfl,
   c6_at_most_one_per_line src6 (some tree6) [⟨1, "", "real"⟩]
     (by unfold extractYamlComments; rw [walk6]; rfl)⟩

/-- C7 counterexample: for `#  hi` (two spaces after the marker) the emitted
text is `"hi"` — `trimStart` removes all leading whitespace — not `" hi"` as
the claim's "at most one immediately following space removed" requires. -/
theorem c7_counterexample :
    extractYamlComments "#  hi".toList none = .ok [⟨1, "document", "hi"⟩] ∧
    ("hi" : String) ≠ " hi" := by
  constructor
  · unfold extractYamlComments
    rw [walk_none]
    rfl
  · decide

/-- C7 as amended: the emitted text is everything after the marker with one
leading `#` stripped and ALL immediately following whitespace removed
(`trimStart`); the remainder — internal `#` characters included — is
preserved verbatim. -/
theorem c7_text_formula (ctx : ScanCtx) (line : List Char)
    (lineStart lineNo nextLineStart h : Nat)
    (hget : line.get? h = some '#')
    (hblock : inBlock ctx.blockRanges (lineStart + h) = false)
    (hemit : (line.take h).all Char.isWhitespace = true ∨
             inValueNode ctx.valueNodes (lineStart + h) = false) :
    ∃ p, scanLineAux ctx line lineStart lineNo nextLineStart (line.drop h) h =
      some ⟨lineNo, p, String.mk ((line.drop (h + 1)).dropWhile Char.isWhitespace)⟩ :=
  ⟨_, scanLineAux_emit ctx line lineStart lineNo nextLineStart h hget hblock hemit⟩

/-- Witness for the amended C7 at the line `#  hi`. -/
theorem c7_text_formula_witness :
    ("#  hi".toList.get? 0 = some '#') ∧
    ∃ p, scanLineAux ctxC7 "#  hi".toList 0 1 5 ("#  hi".toList.drop 0) 0 =
      some ⟨1, p, String.mk (("#  hi".toList.drop 1).dropWhile Char.isWhitespace)⟩ :=
  ⟨by decide,
   c7_text_formula ctxC7 "#  hi".toList 0 1 5 0 (by decide) (by decide)
     (Or.inr (by decide))⟩

theorem exceptThen_ok (x : Except String WalkSt) (f : WalkSt → Except String WalkSt)
    (hx : ∃ a, x = .ok a) (hf : ∀ a, ∃ b, f a = .ok b) :
    ∃ b, exceptThen x f = .ok b := by
  obtain ⟨a, rfl⟩ := hx
  exact hf a

mutual

theorem walkAst_ok (c : Option YNode) (path : List String) (st : WalkSt)
    (h : wfOpt c = true) : ∃ st', walkAst c path st = .ok st' :=
  match c, h with
  | none, _ => ⟨st, rfl⟩
  | some n, h => walkNode_ok n path st h
termination_by structural c

theorem walkNode_ok (n : YNode) (path : List String) (st : WalkSt)
    (h : wfNode n = true) : ∃ st', walkNode n path st = .ok st' :=
  match n, h with
  | .scalar v nt r, _ => by
    cases r with
    | none => exact ⟨st, rfl⟩
    | some se => obtain ⟨s, e⟩ := se; exact ⟨_, rfl⟩
  | .ymap items nt r, h => by
    cases r with
    | none => exact ⟨st, rfl⟩
    | some se =>
      obtain ⟨s, e⟩ := se
      exact walkPairs_ok items path _ h
  | .yseq items nt r, h => by
    cases r with
    | none => exact ⟨st, rfl⟩
    | some se =>
      obtain ⟨s, e⟩ := se
      exact walkItems_ok items 0 path _ h
termination_by structural n

theorem walkPairs_ok (l : List (Option YNode × Option YNode)) (path : List String)
    (st : WalkSt) (h : wfPairs l = true) : ∃ st', walkPairs l path st = .ok st' :=
  match l, h with
  | [], _ => ⟨st, rfl⟩
  | (none, v) :: rest, h => by simp [wfPairs] at h
  | (some kn, none) :: rest, h => by simp [wfPairs] at h
  | (some kn, some vn) :: rest, h => by
    simp only [wfPairs, Bool.and_eq_true] at h
    obtain ⟨⟨⟨⟨hk, hv⟩, hwk⟩, hwv⟩, hrest⟩ := h
    simp only [walkPairs, jsRange]
    cases hvr : vn.range with
    | none => exact walkPairs_ok rest path st hrest
    | some se =>
      obtain ⟨vs, ve⟩ := se
      exact exceptThen_ok _ _ (walkAst_ok (some vn) _ _ hwv)
        (fun a => walkPairs_ok rest path a hrest)
termination_by structural l

theorem walkItems_ok (l : List (Option YNode)) (i : Nat) (path : List String)
    (st : WalkSt) (h : wfItems l = true) : ∃ st', walkItems l i path st = .ok st' :=
  match l, h with
  | [], _ => ⟨st, rfl⟩
  | child :: rest, h => by
    simp only [wfItems, Bool.and_eq_true] at h
    obtain ⟨hc, hrest⟩ := h
    simp only [walkItems]
    exact exceptThen_ok _ _ (walkAst_ok child _ _ hc)
      (fun a => walkItems_ok rest (i + 1) path a hrest)
termination_by structural l

end

/-- C8: the tree walk never throws on a tree satisfying the parser contract: a
non-scalar (or JS-null) map key renders as the sentinel `"<non-scalar-key>"`
instead of raising, and for every tree whose pairs all carry actual key and
value nodes (`wfOpt`) — ranges may be absent anywhere — `extractYamlComments`
returns a result rather than failing. -/
theorem c8_walk_never_throws :
    (keyStr none = "<non-scalar-key>" ∧
     ∀ (items : List (Option YNode × Option YNode)) (nt : String)
       (r : Option (Nat × Nat)), keyStr (some (.ymap items nt r)) = "<non-scalar-key>") ∧
    ∀ (src : List Char) (c : Option YNode), wfOpt c = true →
      ∃ res, extractYamlComments src c = .ok res := by
  refine ⟨⟨rfl, fun _ _ _ => rfl⟩, ?_⟩
  intro src c h
  obtain ⟨st, hst⟩ := walkAst_ok c [] ⟨[], [], []⟩ h
  refine ⟨processLines (buildCtx src st) (splitLines src) (lineStarts src) 1, ?_⟩
  unfold extractYamlComments
  rw [hst]

/-- Witness for C8: a well-formed tree with a non-scalar (map) key. -/
theorem c8_walk_never_throws_witness :
    wfOpt (some tree8) = true ∧
    ∃ res, extractYamlComments [] (some tree8) = .ok res :=
  ⟨by decide, c8_walk_never_throws.2 [] (some tree8) (by decide)⟩

/-- C9 counterexample: for a map node with no range whose single pair has full
offset information, the walk returns immediately with an empty catalog — the
offset-carrying descendants are NOT visited or catalogued, contrary to the
claim.  (Walking the child directly would have catalogued it.) -/
theorem c9_counterexample :
    walkAst (some tree9) [] ⟨[], [], []⟩ = .ok ⟨[], [], []⟩ ∧
    walkAst (some (.scalar "v" "PLAIN" (some (3, 4)))) ["k"] ⟨[], [], []⟩ =
      .ok ⟨[⟨3, 4, "k"⟩, ⟨3, 4, "k"⟩], [], [⟨3, 4, "k"⟩]⟩ :=
  ⟨rfl, rfl⟩

/-- C9 as amended: a node with no offset-span information contributes no
catalog entry and its children are not visited either — the walk returns the
state unchanged (src/index.ts line 90 returns before any recursion). -/
theorem c9_rangeless_node_skipped (n : YNode) (path : List String) (st : WalkSt)
    (h : n.range = none) :
    walkAst (some n) path st = .ok st := by
  show walkNode n path st = .ok st
  rw [walkNode, h]

/-- Witness for the amended C9 at `tree9`. -/
theorem c9_rangeless_node_skipped_witness :
    tree9.range = none ∧
    walkAst (some tree9) ["x"] ⟨[⟨0, 1, "q"⟩], [], []⟩ = .ok ⟨[⟨0, 1, "q"⟩], [], []⟩ :=
  ⟨rfl, c9_rangeless_node_skipped tree9 ["x"] ⟨[⟨0, 1, "q"⟩], [], []⟩ rfl⟩

/-- C10: the root container of `a: 1 # c` is catalogued with the empty-string
path (first catalog entry `⟨0, 4, ""⟩`), `"document"` arising only from the
fallback logic, and the emitted trailing-comment record's path is the empty
string — neither `"document"` nor the scalar's path `"a"`. -/
theorem c10_root_empty_path :
    walkAst (some tree10) [] ⟨[], [], []⟩ =
      .ok ⟨[⟨0, 4, ""⟩, ⟨3, 4, "a"⟩, ⟨3, 4, "a"⟩, ⟨3, 4, "a"⟩], [],
           [⟨3, 4, "a"⟩, ⟨3, 4, "a"⟩]⟩ ∧
    extractYamlComments src10 (some tree10) = .ok [⟨1, "", "c"⟩] ∧
    ("" : String) ≠ "document" ∧ ("" : String) ≠ "a" := by
  refine ⟨walk10, ?_, by decide, by decide⟩
  unfold extractYamlComments
  rw [walk10]
  rfl
